import Mathlib

/-!
Verification of the cite-wide citation rewriting engine
(src/src/services/citationService.ts and the revision in src/unnamed/part_002).

Strings are modelled as lists of characters (Str); the JavaScript string
operations used by the source (split, indexOf, substring, replace with the
concrete regexes of the source, trim, padStart, toString(16)) are translated
directly.  Math.random draws are modelled by an explicit stream of natural
numbers, so the identifier generator consumes a stream and returns none
exactly when the stream runs out before the do/while loop of the source exits.
-/

namespace CiteWide

abbrev Str := List Char

/-- Digit class of the regexes: the d escape, here ASCII 0-9 as matched on the
inputs of interest. -/
def isDigitCh (c : Char) : Bool := decide ('0' ≤ c) && decide (c ≤ '9')

/-- The a-f range used by the hex-letter test of generateHexId. -/
def isHexLetterCh (c : Char) : Bool := decide ('a' ≤ c) && decide (c ≤ 'f')

/-- Character class a-f0-9 of the footnote-token regexes in part_002. -/
def isHexTokCh (c : Char) : Bool := isDigitCh c || isHexLetterCh c

/-- Whitespace class of the regexes (the s escape) and of String.prototype.trim,
restricted to its ASCII members, which are the only ones the inputs use. -/
def isWsCh (c : Char) : Bool :=
  c = ' ' || c = '\t' || c = '\n' || c = '\r' || c = '\x0b' || c = '\x0c'

/-- JS String.prototype.split with separator by newline. -/
def splitLines : Str → List Str
  | [] => [[]]
  | c :: rest =>
    if c = '\n' then [] :: splitLines rest
    else
      match splitLines rest with
      | [] => [[c]]
      | l :: ls => (c :: l) :: ls

/-- Array.prototype.join with a newline separator. -/
def joinLines : List Str → Str
  | [] => []
  | [l] => l
  | l :: ls => l ++ '\n' :: joinLines ls

def startsWithStr : Str → Str → Bool
  | _, [] => true
  | [], _ :: _ => false
  | c :: cs, d :: ds => c = d && startsWithStr cs ds

def idxAux : Str → Str → Option Nat
  | [], needle => if needle.isEmpty then some 0 else none
  | c :: t, needle =>
    if startsWithStr (c :: t) needle then some 0
    else (idxAux t needle).map (· + 1)

/-- JS String.prototype.indexOf with a fromIndex (clamped on both sides as in
ECMAScript); -1 when the needle does not occur at or after the start. -/
def jsIndexOf (hay needle : Str) (fromIdx : Int) : Int :=
  let start := min fromIdx.toNat hay.length
  match idxAux (hay.drop start) needle with
  | some i => ((start + i : Nat) : Int)
  | none => -1

/-- JS s.substring(i) for the nonnegative uses of the source; a negative
start is clamped to 0 exactly as in ECMAScript. -/
def substrFrom (s : Str) (start : Int) : Str := s.drop start.toNat

/-- JS s.substring(0, e); a negative end swaps with 0 and yields the empty
string, which the clamp of toNat reproduces. -/
def substrTo (s : Str) (e : Int) : Str := s.take e.toNat

/-- JS String.prototype.trim. -/
def trimStr (s : Str) : Str :=
  ((s.dropWhile isWsCh).reverse.dropWhile isWsCh).reverse

/-- One lowercase hexadecimal digit, as produced by Number.prototype.toString(16). -/
def hexDigitChar (n : Nat) : Char := "0123456789abcdef".toList.getD n '*'

/-- Fuelled digit expansion; fuel n + 1 is always enough since every recursive
step divides the argument by 16. -/
def toHexAux : Nat → Nat → Str
  | 0, _ => []
  | fuel + 1, n =>
    if n < 16 then [hexDigitChar n]
    else toHexAux fuel (n / 16) ++ [hexDigitChar (n % 16)]

/-- JS n.toString(16) for natural n. -/
def toHexChars (n : Nat) : Str := toHexAux (n + 1) n

/-- JS String.prototype.padStart(6, zero). -/
def padSix (s : Str) : Str := List.replicate (6 - s.length) '0' ++ s

/--
generateHexId of src/src/services/citationService.ts.  The pool is the
usedHexIds set, the stream holds the successive values of
Math.floor(Math.random() * 0x1000000).  The letter/digit check of the source
ends in a bare continue, and in a do/while loop continue jumps to the loop
condition, so both the passing and the failing candidate reach the same
usedHexIds.has test; the translation therefore has a single membership test.
Returns the id, the grown pool and the unused remainder of the stream, or
none when the stream is exhausted while the loop is still running.
-/
def generateHexIdCS (pool : List Str) : List Nat → Option (Str × List Str × List Nat)
  | [] => none
  | d :: rest =>
    let hexId := padSix (toHexChars d)
    if hexId ∈ pool then generateHexIdCS pool rest
    else some (hexId, hexId :: pool, rest)

/-- CitationMatch of the source; index is the absolute offset as a JS number,
so -1 can in principle be stored when indexOf misses. -/
structure CMatch where
  number : Str
  original : Str
  index : Int
  lineNumber : Nat
  lineContent : Str
  isReference : Bool
  isReferenceSource : Bool := false
  deriving DecidableEq, Repr

/-- CitationGroup of the source; the matches field of the source is named
matchList here because matches is a reserved word in Lean. -/
structure CGroup where
  number : Str
  matchList : List CMatch
  referenceText : Option Str := none
  deriving DecidableEq, Repr

/-- ConversionResult of the source (stats flattened into one field). -/
structure ConvResult where
  content : Str
  changed : Bool
  citationsConverted : Nat
  deriving DecidableEq, Repr

/--
Scanner for the global regex matching a bracket, one-or-more digits and a
closing bracket (the citationPattern of src/src/services/citationService.ts,
with no lookahead).  Yields the in-line index of each match with its captured
digits.  The translation restarts one character after each bracket instead of
jumping past the whole match; the two walks find the same matches because a
match contains no opening bracket after its first character.
-/
def scanNumAux : Str → Nat → List (Nat × Str)
  | [], _ => []
  | c :: rest, i =>
    (if c = '[' then
      match rest.dropWhile isDigitCh with
      | ']' :: _ =>
        if (rest.takeWhile isDigitCh).isEmpty then []
        else [(i, rest.takeWhile isDigitCh)]
      | _ => []
    else []) ++ scanNumAux rest (i + 1)

def scanNumCS (line : Str) : List (Nat × Str) := scanNumAux line 0

/-- Scanner for the numeric citation pattern of part_002: as above but with a
negative lookahead rejecting a colon right after the closing bracket. -/
def scanNumLA : Str → Nat → List (Nat × Str)
  | [], _ => []
  | c :: rest, i =>
    (if c = '[' then
      match rest.dropWhile isDigitCh with
      | d :: tail =>
        if d = ']' then
          if (rest.takeWhile isDigitCh).isEmpty || tail.head? = some ':' then []
          else [(i, rest.takeWhile isDigitCh)]
        else []
      | [] => []
    else []) ++ scanNumLA rest (i + 1)

/-- Scanner for the footnote citation pattern of part_002: bracket, caret, a
nonempty a-f0-9 token, closing bracket, negative lookahead for a colon. -/
def scanHexLA : Str → Nat → List (Nat × Str)
  | [], _ => []
  | c :: rest, i =>
    (match rest with
    | c2 :: t =>
      if c = '[' && c2 = '^' then
        match t.dropWhile isHexTokCh with
        | d :: tail =>
          if d = ']' then
            if (t.takeWhile isHexTokCh).isEmpty || tail.head? = some ':' then []
            else [(i, t.takeWhile isHexTokCh)]
          else []
        | [] => []
      else []
    | [] => []) ++ scanHexLA rest (i + 1)

/-- The literal text a numeric match stands for. -/
def numOriginal (ds : Str) : Str := '[' :: ds ++ [']']

/-- The literal text a footnote match stands for. -/
def hexOriginal (tok : Str) : Str := '[' :: '^' :: tok ++ [']']

/-- The footnote label written by the rewriters. -/
def footnoteLabel (hexId : Str) : Str := '[' :: '^' :: hexId ++ [']']

/-- Matches contributed by one line in extractCitations of
src/src/services/citationService.ts: each scan hit is located in the whole
document by indexOf of the line (from 0) plus the in-line offset, then indexOf
of the matched text from there. -/
def lineMatchesCS (content line : Str) (lineNo : Nat) : List CMatch :=
  (scanNumCS line).map fun p =>
    let orig := numOriginal p.2
    { number := p.2
      original := orig
      index := jsIndexOf content orig (jsIndexOf content line 0 + (p.1 : Int))
      lineNumber := lineNo
      lineContent := line
      isReference := false }

/-- The Map grouping of matches by number: insertion-ordered, append to an
existing group or create a new one at the end. -/
def upsertMatch (gs : List CGroup) (m : CMatch) : List CGroup :=
  if gs.any (fun g => g.number = m.number) then
    gs.map fun g =>
      if g.number = m.number then { g with matchList := g.matchList ++ [m] } else g
  else gs ++ [{ number := m.number, matchList := [m] }]

/-- Stable ascending insertion by index (Array.prototype.sort is stable). -/
def insAscMatch (m : CMatch) : List CMatch → List CMatch
  | [] => [m]
  | x :: xs => if m.index < x.index then m :: x :: xs else x :: insAscMatch m xs

def sortAscMatches (ms : List CMatch) : List CMatch :=
  ms.foldl (fun acc m => insAscMatch m acc) []

/-- Stable descending insertion by index. -/
def insDescMatch (m : CMatch) : List CMatch → List CMatch
  | [] => [m]
  | x :: xs => if m.index > x.index then m :: x :: xs else x :: insDescMatch m xs

def sortDescMatches (ms : List CMatch) : List CMatch :=
  ms.foldl (fun acc m => insDescMatch m acc) []

/-- The lastOccurrences map: later writes win, keys keep first-write order
(the order is irrelevant, only lookup is used). -/
def setLastOcc (l : List (Str × CMatch)) (m : CMatch) : List (Str × CMatch) :=
  if l.any (fun p => p.1 = m.number) then
    l.map fun p => if p.1 = m.number then (p.1, m) else p
  else l ++ [(m.number, m)]

def lookupLast (l : List (Str × CMatch)) (k : Str) : Option CMatch :=
  (l.find? (fun p => p.1 = k)).map (·.2)

/-- Set isReference/isReferenceSource on the first match whose index equals the
given one (the Array.prototype.find of the source), returning the updated list
and the updated match when found. -/
def setFlagFirst : List CMatch → Int → List CMatch × Option CMatch
  | [], _ => ([], none)
  | m :: ms, idx =>
    if m.index = idx then
      let m2 := { m with isReference := true, isReferenceSource := true }
      (m2 :: ms, some m2)
    else
      let r := setFlagFirst ms idx
      (m :: r.1, r.2)

/-- The last-occurrence-marking pass of extractCitations: mark the match of the
group whose index equals the last occurrence of the number, and read the
reference text from everything after the bracketed number on that line. -/
def markRefCS (lo : List (Str × CMatch)) (g : CGroup) : CGroup :=
  match lookupLast lo g.number with
  | none => g
  | some lastM =>
    match setFlagFirst g.matchList lastM.index with
    | (ms, none) => { g with matchList := ms }
    | (ms, some gm) =>
      let cp := jsIndexOf gm.lineContent (numOriginal g.number) 0
      if cp = -1 then { g with matchList := ms }
      else
        { g with
          matchList := ms
          referenceText :=
            some (trimStr (substrFrom gm.lineContent (cp + (g.number.length : Int) + 2))) }

/-- extractCitations of src/src/services/citationService.ts. -/
def extractCitationsCS (content : Str) : List CGroup :=
  let lines := splitLines content
  let ms := (lines.enum.map fun p => lineMatchesCS content p.2 (p.1 + 1)).flatten
  let groups := ms.foldl upsertMatch []
  let lo := (sortAscMatches ms).foldl setLastOcc []
  groups.map (markRefCS lo)

/-- One substitution step of the rewrite loops: splice the replacement over
the span of the match against the current text.  A reference match with a
truthy (present and nonempty) referenceText gets the footnote label, a colon
and the reference text; every other match gets just the label. -/
def replaceMatchCS (hexId : Str) (refText : Option Str) (acc : Str × Nat) (m : CMatch) :
    Str × Nat :=
  let before := substrTo acc.1 m.index
  let after := substrFrom acc.1 (m.index + (m.original.length : Int))
  let out :=
    match refText with
    | some rt =>
      if m.isReference && !rt.isEmpty then
        before ++ footnoteLabel hexId ++ ':' :: ' ' :: rt ++ after
      else before ++ footnoteLabel hexId ++ after
    | none => before ++ footnoteLabel hexId ++ after
  (out, acc.2 + 1)

/-- The per-group loop of convertAllCitations: one fresh id per group, then the
descending-index replacement sweep over the matches of the group. -/
def processGroupsCS (pool : List Str) (stream : List Nat) (updated : Str) (count : Nat) :
    List CGroup → Option (Str × Nat × List Str × List Nat)
  | [] => some (updated, count, pool, stream)
  | g :: gs =>
    match generateHexIdCS pool stream with
    | none => none
    | some (hexId, pool2, stream2) =>
      let r := (sortDescMatches g.matchList).foldl (replaceMatchCS hexId g.referenceText)
        (updated, count)
      processGroupsCS pool2 stream2 r.1 r.2 gs

/-- convertAllCitations of src/src/services/citationService.ts; none only when
the modelled random stream runs out. -/
def convertAllCitationsCS (pool : List Str) (stream : List Nat) (content : Str) :
    Option (ConvResult × List Str × List Nat) :=
  let gs := extractCitationsCS content
  if gs = [] then some ({ content := content, changed := false, citationsConverted := 0 },
    pool, stream)
  else
    (processGroupsCS pool stream content 0 gs).map fun r =>
      ({ content := r.1, changed := decide (0 < r.2.1), citationsConverted := r.2.1 },
        r.2.2.1, r.2.2.2)

/-- convertCitation of src/src/services/citationService.ts. -/
def convertCitationCS (pool : List Str) (stream : List Nat) (content : Str)
    (citationNumber : Str) : Option (ConvResult × List Str × List Nat) :=
  let gs := extractCitationsCS content
  match gs.find? (fun g => g.number = citationNumber) with
  | none => some ({ content := content, changed := false, citationsConverted := 0 },
    pool, stream)
  | some g =>
    match generateHexIdCS pool stream with
    | none => none
    | some (hexId, pool2, stream2) =>
      let r := (sortDescMatches g.matchList).foldl (replaceMatchCS hexId g.referenceText)
        (content, 0)
      some ({ content := r.1, changed := decide (0 < r.2), citationsConverted := r.2 },
        pool2, stream2)

/-- Parse one bracketed-marker-then-punctuation match of the line regex of
moveCitationsBehindPunctuation in src/src/services/citationService.ts: a
bracket, one or more non-bracket characters, a closing bracket and one
punctuation character.  Returns the inner characters, the punctuation and the
remainder after the match. -/
def parseBrkPunct (s : Str) : Option (Str × Char × Str) :=
  match s with
  | [] => none
  | c :: t =>
    if c = '[' then
      match t.dropWhile (fun x => !(x = ']')) with
      | d :: p :: rest =>
        if d = ']' then
          if (t.takeWhile (fun x => !(x = ']'))).isEmpty then none
          else if p = '.' || p = ',' || p = ';' || p = ':' || p = '!' || p = '?' then
            some (t.takeWhile (fun x => !(x = ']')), p, rest)
          else none
        else none
      | _ => none
    else none

/-- The global replace of the swap regex over one line; replacement swaps the
match groups.  Fuel bounds the walk; one more than the line length is always
enough since every step consumes at least one character. -/
def moveLineCSAux : Nat → Str → Str
  | 0, s => s
  | _ + 1, [] => []
  | fuel + 1, c :: rest =>
    match parseBrkPunct (c :: rest) with
    | some (inner, p, rest2) => p :: '[' :: inner ++ ']' :: moveLineCSAux fuel rest2
    | none => c :: moveLineCSAux fuel rest

/-- moveCitationsBehindPunctuation of src/src/services/citationService.ts:
split into lines, swap each single bracketed marker with the punctuation
character that follows it, join. -/
def moveCitationsCS (content : Str) : Str :=
  joinLines ((splitLines content).map fun line => moveLineCSAux (line.length + 1) line)

/-- assureSpacingBetweenCitations: global replace of a closing bracket, any
whitespace run and an opening bracket by the closing bracket, one space, the
same whitespace run and the opening bracket.  Fuelled walk as above. -/
def assureAux : Nat → Str → Str
  | 0, s => s
  | _ + 1, [] => []
  | fuel + 1, c :: rest =>
    if c = ']' then
      if (rest.dropWhile isWsCh).head? = some '[' then
        ']' :: ' ' ::
          (rest.takeWhile isWsCh ++ '[' :: assureAux fuel (rest.dropWhile isWsCh).tail)
      else ']' :: assureAux fuel rest
    else c :: assureAux fuel rest

def assureSpacingCS (content : Str) : Str := assureAux (content.length + 1) content

/-! ### The part_002 revision of the service -/

/-- The reference-definition skip test of the scan loop in part_002 for the
numeric form: optional whitespace, bracketed digits, then a colon with no
space allowed before it. -/
def skipNumDef (line : Str) : Bool :=
  match (line.dropWhile isWsCh) with
  | '[' :: t =>
    let ds := t.takeWhile isDigitCh
    !ds.isEmpty &&
      (match t.dropWhile isDigitCh with
      | ']' :: ':' :: _ => true
      | _ => false)
  | _ => false

/-- The skip test for the footnote form. -/
def skipHexDef (line : Str) : Bool :=
  match (line.dropWhile isWsCh) with
  | '[' :: '^' :: t =>
    let tok := t.takeWhile isHexTokCh
    !tok.isEmpty &&
      (match t.dropWhile isHexTokCh with
      | ']' :: ':' :: _ => true
      | _ => false)
  | _ => false

/-- The anchored numeric reference-definition regex of part_002 (whitespace,
bracketed digits, optional whitespace, optional colon, whitespace, rest); on a
line the whole match is the line itself, so only the captured digits matter. -/
def parseNumRef (line : Str) : Option Str :=
  match line.dropWhile isWsCh with
  | [] => none
  | c :: t =>
    if c = '[' then
      if (t.takeWhile isDigitCh).isEmpty then none
      else
        match t.dropWhile isDigitCh with
        | d :: _ => if d = ']' then some (t.takeWhile isDigitCh) else none
        | [] => none
    else none

/-- The anchored footnote reference-definition regex of part_002; returns the
captured token. -/
def parseHexRef (line : Str) : Option Str :=
  match line.dropWhile isWsCh with
  | c :: c2 :: t =>
    if c = '[' && c2 = '^' then
      if (t.takeWhile isHexTokCh).isEmpty then none
      else
        match t.dropWhile isHexTokCh with
        | d :: _ => if d = ']' then some (t.takeWhile isHexTokCh) else none
        | [] => none
    else none
  | _ => none

/-- The namespaced key given to footnote matches in part_002. -/
def hexKey (tok : Str) : Str := 'h' :: 'e' :: 'x' :: '_' :: tok

/-- The locating computation of the scan loop of part_002: indexOf of the
line from 0, plus the in-line offset when the line was found, as the lower
bound of an indexOf of the matched text. -/
def locateP2 (content line orig : Str) (pos : Nat) : Int :=
  jsIndexOf content orig
    (if 0 ≤ jsIndexOf content line 0 then jsIndexOf content line 0 + (pos : Int) else 0)

/-- Matches contributed by one line in extractCitations of part_002: empty
lines and reference-definition lines contribute nothing; otherwise the numeric
scan then the footnote scan, each hit located by indexOf of the line plus the
in-line offset and guarded on a nonnegative result. -/
def lineMatchesP2 (content line : Str) (lineNo : Nat) : List CMatch :=
  if line.isEmpty then []
  else if skipNumDef line || skipHexDef line then []
  else
    ((scanNumLA line 0).filterMap fun p =>
      if 0 ≤ locateP2 content line (numOriginal p.2) p.1 then
        some { number := p.2, original := numOriginal p.2,
               index := locateP2 content line (numOriginal p.2) p.1,
               lineNumber := lineNo, lineContent := line, isReference := false }
      else none) ++
    ((scanHexLA line 0).filterMap fun p =>
      if 0 ≤ locateP2 content line (hexOriginal p.2) p.1 then
        some { number := hexKey p.2, original := hexOriginal p.2,
               index := locateP2 content line (hexOriginal p.2) p.1,
               lineNumber := lineNo, lineContent := line, isReference := false }
      else none)

/-- Append a match to the group of the given key when such a group exists (the
reference-definition pass of part_002 never creates groups). -/
def pushIfGroup (gs : List CGroup) (k : Str) (m : CMatch) : List CGroup :=
  gs.map fun g => if g.number = k then { g with matchList := g.matchList ++ [m] } else g

/-- The numeric reference-definition check of the second pass of part_002.
The whole regex match is the entire line, so original is the line and the
in-line indexOf of it is 0. -/
def refPassNum (content : Str) (gs : List CGroup) (p : Nat × Str) : List CGroup :=
  match parseNumRef p.2 with
  | some ds =>
    pushIfGroup gs ds
      { number := ds, original := p.2,
        index := jsIndexOf content p.2 0 + jsIndexOf p.2 p.2 0,
        lineNumber := p.1 + 1, lineContent := p.2,
        isReference := true, isReferenceSource := true }
  | none => gs

/-- The footnote reference-definition check of the second pass of part_002. -/
def refPassHex (content : Str) (gs : List CGroup) (p : Nat × Str) : List CGroup :=
  match parseHexRef p.2 with
  | some tok =>
    pushIfGroup gs (hexKey tok)
      { number := hexKey tok, original := p.2,
        index := jsIndexOf content p.2 0 + jsIndexOf p.2 p.2 0,
        lineNumber := p.1 + 1, lineContent := p.2,
        isReference := true, isReferenceSource := true }
  | none => gs

/-- Reference definitions contributed by one line in the second pass of
extractCitations of part_002: empty lines are skipped, then the numeric check
and the footnote check run in order. -/
def refPassLine (content : Str) (gs : List CGroup) (p : Nat × Str) : List CGroup :=
  if p.2.isEmpty then gs
  else refPassHex content (refPassNum content gs p) p

/-- extractCitations of part_002 (src/unnamed/part_002): scan pass, grouping,
then the reference-definition pass; referenceText is never filled in. -/
def extractCitationsP2 (content : Str) : List CGroup :=
  let lines := splitLines content
  let ms := (lines.enum.map fun p => lineMatchesP2 content p.2 (p.1 + 1)).flatten
  let groups := ms.foldl upsertMatch []
  lines.enum.foldl (refPassLine content) groups

/-- Parse one complete bracketed unit (bracket, nonempty non-bracket run,
closing bracket), returning the unit with its brackets and the remainder. -/
def parseUnit (s : Str) : Option (Str × Str) :=
  match s with
  | [] => none
  | c :: t =>
    if c = '[' then
      match t.dropWhile (fun x => !(x = ']')) with
      | d :: rest =>
        if d = ']' then
          if (t.takeWhile (fun x => !(x = ']'))).isEmpty then none
          else some ('[' :: t.takeWhile (fun x => !(x = ']')) ++ [']'], rest)
        else none
      | [] => none
    else none

/-- Greedily parse a maximal run of bracketed units (the plus over the
non-capturing unit group in the regex of part_002). -/
def parseUnits : Nat → Str → List Str × Str
  | 0, s => ([], s)
  | fuel + 1, s =>
    match parseUnit s with
    | some (u, rest) => (u :: (parseUnits fuel rest).1, (parseUnits fuel rest).2)
    | none => ([], s)

/-- Single spaces between the units, as the replacement callback of part_002
produces by re-matching the units and joining with a space. -/
def joinSp : List Str → Str
  | [] => []
  | u :: us =>
    match us with
    | [] => u
    | _ :: _ => u ++ ' ' :: joinSp us

/-- The global replace over one line of the regex of part_002: one or more
adjacent bracketed markers followed by a period or comma move behind the
punctuation, separated by single spaces, with a space after the punctuation. -/
def moveLineP2Aux : Nat → Str → Str
  | 0, s => s
  | _ + 1, [] => []
  | fuel + 1, c :: rest =>
    match parseUnits (c :: rest).length (c :: rest) with
    | (u :: us, p :: rest2) =>
      if p = '.' || p = ',' then
        p :: ' ' :: joinSp (u :: us) ++ moveLineP2Aux fuel rest2
      else c :: moveLineP2Aux fuel rest
    | _ => c :: moveLineP2Aux fuel rest

/-- The case-insensitive heading test of part_002 on the trimmed line: one or
more hashes, optional whitespace, one of the three section words, optional
whitespace, end of line. -/
def lowerEqWord : Str → Str → Option Str
  | s, [] => some s
  | [], _ :: _ => none
  | c :: cs, w :: ws => if c.toLower = w then lowerEqWord cs ws else none

def isHeadingRef (line : Str) : Bool :=
  let t := trimStr line
  let hashes := t.takeWhile (fun c => c = '#')
  let r := (t.dropWhile (fun c => c = '#')).dropWhile isWsCh
  !hashes.isEmpty &&
    ([ "references", "sources", "footnotes" ].any fun w =>
      match lowerEqWord r w.toList with
      | some rest => rest.all isWsCh
      | none => false)

/-- The reference-definition-line test of part_002 used by the state machine:
whitespace, a bracketed nonempty non-bracket run, whitespace, a colon. -/
def isRefDefAny (line : Str) : Bool :=
  match (line.dropWhile isWsCh) with
  | '[' :: t =>
    let inner := t.takeWhile (fun c => !(c = ']'))
    !inner.isEmpty &&
      (match t.dropWhile (fun c => !(c = ']')) with
      | ']' :: u => (u.dropWhile isWsCh).head? = some ':'
      | _ => false)
  | _ => false

/-- The all-stars-line test of part_002 on the trimmed line. -/
def isStarsLine (line : Str) : Bool :=
  let t := trimStr line
  let stars := t.takeWhile (fun c => c = '*')
  !stars.isEmpty && (t.dropWhile (fun c => c = '*')).all isWsCh

/-- One line of moveCitationsBehindPunctuation of part_002, threading the
in-references-section flag exactly as the closure of the source mutates it. -/
def moveLineP2 (inRef : Bool) (line : Str) : Bool × Str :=
  if isHeadingRef line then (true, line)
  else if inRef && isRefDefAny line then (inRef, line)
  else
    let inRef2 :=
      if inRef && !(trimStr line).isEmpty && !isRefDefAny line && !isStarsLine line then
        if (trimStr line).head? = some '#' then false else inRef
      else inRef
    if inRef2 then (inRef2, line)
    else (inRef2, moveLineP2Aux (line.length + 1) line)

def moveLinesP2 : Bool → List Str → List Str
  | _, [] => []
  | b, l :: ls =>
    let r := moveLineP2 b l
    r.2 :: moveLinesP2 r.1 ls

/-- moveCitationsBehindPunctuation of part_002. -/
def moveCitationsP2 (content : Str) : Str :=
  joinLines (moveLinesP2 false (splitLines content))

/-! ### Decidable text predicates used by the statements -/

/-- Number of (possibly overlapping) occurrences of a substring. -/
def countSub (s needle : Str) : Nat :=
  match s with
  | [] => if startsWithStr [] needle then 1 else 0
  | _ :: t => (if startsWithStr s needle then 1 else 0) + countSub t needle

/-- Does the text start with a bracketed nonempty digit run? -/
def headMark : Str → Bool
  | [] => false
  | c :: t =>
    c = '[' &&
      (match t.dropWhile isDigitCh with
      | ']' :: _ => !(t.takeWhile isDigitCh).isEmpty
      | _ => false)

/-- Does a bracketed nonempty digit run occur anywhere in the text?  This is
the substring shape the numeric citation scanner keys on; a document written
entirely in footnote syntax contains no such substring. -/
def containsNumMark : Str → Bool
  | [] => false
  | c :: t => headMark (c :: t) || containsNumMark t

/-- Is a closing bracket immediately followed by an opening bracket anywhere? -/
def hasAdjB : Str → Bool
  | [] => false
  | [_] => false
  | a :: b :: rest => (a = ']' && b = '[') || hasAdjB (b :: rest)

/-- A numeric grouping key: nonempty, all digits. -/
def isNumericKeyB (k : Str) : Bool := !k.isEmpty && k.all isDigitCh

/-- A footnote grouping key: carries the hex underscore namespace marker. -/
def isHexKeyB (k : Str) : Bool :=
  decide (k.take 4 = 'h' :: 'e' :: 'x' :: '_' :: [])

/-- Grouping invariant of extractCitations in part_002: the key of the group
lies in one of the two key namespaces and every match of the group carries
exactly the group key. -/
def GroupWellKeyed (g : CGroup) : Prop :=
  (isNumericKeyB g.number = true ∨ isHexKeyB g.number = true) ∧
    ∀ x ∈ g.matchList, x.number = g.number

/-! ### Concrete documents used by the closed statements -/

def c1doc : Str := "Text[1].\n[1] Some Source".toList

def c1out : Str := "Text[^00000a].\n[^00000a]: Some Source Some Source".toList

def c4doc : Str := "a[1]b\na[1]b".toList

def c4out : Str := "a[^00000a]0000a]: bb\na[1]b".toList

def c7doc : Str := "a[1][2],b".toList

def demoFootnoteDoc : Str := "Hello[^a1b2c3] world.\n[^a1b2c3]: Some source".toList

def demoMixedDoc : Str := "See [1] and [^1] end.".toList

def demoNoCiteDoc : Str := "no citations at all".toList

def c9pool : List Str := ["000000".toList]

def dummyMatch : CMatch :=
  { number := [], original := [], index := 0, lineNumber := 0, lineContent := [],
    isReference := false }

def dummyGroup : CGroup := { number := [], matchList := [] }

/-- The first group the part_002 extraction finds in the mixed demo document
(the numeric group of the bracketed one). -/
def c5group : CGroup := (extractCitationsP2 demoMixedDoc).headD dummyGroup

def c5match : CMatch := c5group.matchList.headD dummyMatch

/-! ### Theorems -/

/-- C1: on a document with the numeric reference definition line bracketed-one
space Some Source, convertAllCitations reads the reference text into the
rewritten label and also leaves it in the body, so the reference text appears
twice in the output, not exactly once as the specification demands.  The
statement evaluates the service on the failing input: the result is the
duplicated document and the substring Some Source occurs twice. -/
theorem convertAll_duplicates_reference_text :
    convertAllCitationsCS [] [10] c1doc =
      some ({ content := c1out, changed := true, citationsConverted := 2 },
        ["00000a".toList], []) ∧
    countSub c1out "Some Source".toList = 2 ∧
    countSub c1doc "Some Source".toList = 1 := by
  refine ⟨by decide, by decide, by decide⟩

/-- C3: with an empty pool and a first random draw of 0, generateHexId of
src/src/services/citationService.ts returns the all-digit identifier 000000,
because the bare continue after the letter-and-digit check jumps to the
do/while condition and exits the loop; the issued identifier therefore
violates the at-least-one-letter requirement of the claim. -/
theorem generateHexId_returns_all_digit_id :
    generateHexIdCS [] [0] = some ("000000".toList, ["000000".toList], []) ∧
    "000000".toList.any isHexLetterCh = false := by
  refine ⟨by decide, by decide⟩

/-- C4: on a document whose two lines are equal, extractCitations locates
both occurrences of the bracketed one at the first line (indexOf of the line
finds the first copy), so convertCitation rewrites the same span twice,
corrupts the first line and leaves the occurrence on the second line
unconverted: the displayed bracketed one still occurs once in the output. -/
theorem convertCitation_corrupts_duplicate_lines :
    convertCitationCS [] [10] c4doc "1".toList =
      some ({ content := c4out, changed := true, citationsConverted := 2 },
        ["00000a".toList], []) ∧
    countSub c4out "[1]".toList = 1 := by
  refine ⟨by decide, by decide⟩

/-- C6 counterexample: assureSpacingBetweenCitations is not idempotent; on a
closing bracket directly followed by an opening bracket a first application
inserts one space and a second application inserts another, because the
replacement emits a space in front of the captured whitespace run. -/
theorem assureSpacing_not_idempotent :
    ¬(assureSpacingCS (assureSpacingCS "][".toList) = assureSpacingCS "][".toList ∧
      assureSpacingCS "][".toList = "] [".toList ∧
      assureSpacingCS (assureSpacingCS "][".toList) = "] [".toList) := by
  decide

/-- C7 counterexample: on the scenario input the named service does not
produce the output the specification displays. -/
theorem movePunctuation_scenario_counterexample :
    ¬ moveCitationsCS c7doc = "a,[1] [2]b".toList := by decide

/-- C7 amended: the named service swaps each single bracketed marker with the
punctuation character that follows it, yielding one comma between the two
markers; the part_002 revision moves the comma in front of the whole marker
group followed by a space and separates the markers by single spaces. -/
theorem movePunctuation_scenario_actual :
    moveCitationsCS c7doc = "a[1],[2]b".toList ∧
    moveCitationsP2 c7doc = "a, [1] [2]b".toList := by
  refine ⟨by decide, by decide⟩

/-- C8: when extraction finds no citation group, convertAllCitations returns
the input content with the changed flag false and zero conversions, and when
the requested number has no group, convertCitation does the same; both are
ordinary return values (the translations are total functions into a result
value), not exceptions. -/
theorem zero_effect_flag_not_exception (pool : List Str) (stream : List Nat)
    (content n : Str) :
    (extractCitationsCS content = [] →
      convertAllCitationsCS pool stream content =
        some ({ content := content, changed := false, citationsConverted := 0 },
          pool, stream)) ∧
    ((extractCitationsCS content).find? (fun g => g.number = n) = none →
      convertCitationCS pool stream content n =
        some ({ content := content, changed := false, citationsConverted := 0 },
          pool, stream)) := by
  constructor
  · intro h
    simp only [convertAllCitationsCS, h, if_pos]
  · intro h
    simp only [convertCitationCS, h]

theorem zero_effect_flag_not_exception_witness :
    convertAllCitationsCS [] [] demoNoCiteDoc =
      some ({ content := demoNoCiteDoc, changed := false, citationsConverted := 0 },
        [], []) ∧
    convertCitationCS [] [] demoNoCiteDoc "7".toList =
      some ({ content := demoNoCiteDoc, changed := false, citationsConverted := 0 },
        [], []) :=
  ⟨(zero_effect_flag_not_exception [] [] demoNoCiteDoc "7".toList).1 (by decide),
   (zero_effect_flag_not_exception [] [] demoNoCiteDoc "7".toList).2 (by decide)⟩

/-- C9: when every drawable identifier is already in the pool, the do/while
loop of generateHexId never exits: however many random draws the stream
provides, the function is still looping (none), and no retry cap or
ExhaustedIdentifierSpace error exists anywhere in the source. -/
theorem generateHexId_exhausted_pool_never_returns (pool : List Str)
    (stream : List Nat) (h : ∀ d ∈ stream, padSix (toHexChars d) ∈ pool) :
    generateHexIdCS pool stream = none := by
  induction stream with
  | nil => rfl
  | cons d rest ih =>
    have hd : padSix (toHexChars d) ∈ pool := h d (by simp)
    simp only [generateHexIdCS, if_pos hd]
    exact ih fun x hx => h x (by simp [hx])

theorem generateHexId_exhausted_pool_witness :
    generateHexIdCS c9pool [0, 0] = none :=
  generateHexId_exhausted_pool_never_returns c9pool [0, 0] (by decide)

/-! ### C2 support: a document with no numeric marker yields no groups -/

theorem scanNumAux_eq_nil {s : Str} (h : containsNumMark s = false) :
    ∀ i, scanNumAux s i = [] := by
  induction s with
  | nil => intro i; rfl
  | cons c t ih =>
    intro i
    rw [containsNumMark, Bool.or_eq_false_iff] at h
    have hh := h.1
    rw [scanNumAux, ih h.2 (i + 1), List.append_nil]
    by_cases hc : c = '['
    · subst hc
      rw [if_pos rfl]
      split
      · next tail heq =>
          simp only [headMark, heq] at hh
          rw [if_pos]
          simpa using hh
      · rfl
    · rw [if_neg hc]

theorem headMark_append {s t : Str} (h : headMark s = true) : headMark (s ++ t) = true := by
  cases s with
  | nil => simp [headMark] at h
  | cons c u =>
    simp only [headMark, Bool.and_eq_true, decide_eq_true_eq] at h
    obtain ⟨hc, hm⟩ := h
    subst hc
    rcases hdw : List.dropWhile isDigitCh u with _ | ⟨d, r⟩
    · rw [hdw] at hm; simp at hm
    · rw [hdw] at hm
      have hne : ¬(List.dropWhile isDigitCh u).isEmpty = true := by
        rw [hdw]; simp
      have hdw2 : List.dropWhile isDigitCh (u ++ t) = d :: (r ++ t) := by
        rw [List.dropWhile_append, if_neg hne, hdw]; rfl
      have htk : List.takeWhile isDigitCh (u ++ t) = List.takeWhile isDigitCh u := by
        rw [List.takeWhile_append]
        rw [if_neg]
        intro hlen
        have := List.takeWhile_append_dropWhile (p := isDigitCh) (l := u)
        have hdrop : (List.dropWhile isDigitCh u).length = 0 := by
          have h1 := congrArg List.length this
          rw [List.length_append, hlen] at h1
          omega
        rw [hdw] at hdrop
        simp at hdrop
      split at hm
      · next tail heq =>
          injection heq with h1 h2
          subst h1
          simp only [List.cons_append, headMark, hdw2, htk]
          simp [hm]
      · cases hm

theorem containsNumMark_append_left {s t : Str} (h : containsNumMark s = true) :
    containsNumMark (s ++ t) = true := by
  induction s with
  | nil => simp [containsNumMark] at h
  | cons c u ih =>
    rw [containsNumMark, Bool.or_eq_true] at h
    rw [List.cons_append, containsNumMark, Bool.or_eq_true]
    rcases h with h | h
    · exact Or.inl (by simpa using headMark_append (t := t) h)
    · exact Or.inr (ih h)

theorem containsNumMark_append_right {s t : Str} (h : containsNumMark t = true) :
    containsNumMark (s ++ t) = true := by
  induction s with
  | nil => simpa using h
  | cons c u ih =>
    rw [List.cons_append, containsNumMark, Bool.or_eq_true]
    exact Or.inr ih

theorem containsNumMark_middle {a l b : Str} (h : containsNumMark (a ++ l ++ b) = false) :
    containsNumMark l = false := by
  cases hcl : containsNumMark l
  · rfl
  · have h1 : containsNumMark (l ++ b) = true := containsNumMark_append_left hcl
    have h2 : containsNumMark (a ++ (l ++ b)) = true := containsNumMark_append_right h1
    rw [← List.append_assoc] at h2
    rw [h2] at h
    cases h

theorem splitLines_ne_nil (s : Str) : splitLines s ≠ [] := by
  cases s with
  | nil => simp [splitLines]
  | cons c t =>
    rw [splitLines]
    by_cases hc : c = '\n'
    · rw [if_pos hc]; simp
    · rw [if_neg hc]
      rcases hsp : splitLines t with _ | ⟨l, ls⟩ <;> simp

theorem splitLines_first {s l : Str} {ls : List Str} (h : splitLines s = l :: ls) :
    ∃ b, s = l ++ b := by
  induction s generalizing l ls with
  | nil =>
    rw [splitLines] at h
    cases h
    exact ⟨[], rfl⟩
  | cons c t ih =>
    rw [splitLines] at h
    by_cases hc : c = '\n'
    · rw [if_pos hc] at h
      cases h
      exact ⟨c :: t, rfl⟩
    · rw [if_neg hc] at h
      rcases hsp : splitLines t with _ | ⟨l0, ls0⟩
      · exact absurd hsp (splitLines_ne_nil t)
      · rw [hsp] at h
        cases h
        obtain ⟨b, hb⟩ := ih hsp
        exact ⟨b, by rw [hb]; rfl⟩

theorem mem_splitLines_middle {s l : Str} (h : l ∈ splitLines s) :
    ∃ a b, s = a ++ l ++ b := by
  induction s with
  | nil =>
    rw [splitLines, List.mem_singleton] at h
    exact ⟨[], [], by simp [h]⟩
  | cons c t ih =>
    rw [splitLines] at h
    by_cases hc : c = '\n'
    · rw [if_pos hc] at h
      rcases List.mem_cons.1 h with h1 | h1
      · exact ⟨[], c :: t, by simp [h1]⟩
      · obtain ⟨a, b, hab⟩ := ih h1
        exact ⟨c :: a, b, by rw [List.cons_append, List.cons_append, ← hab]⟩
    · rw [if_neg hc] at h
      rcases hsp : splitLines t with _ | ⟨l0, ls0⟩
      · exact absurd hsp (splitLines_ne_nil t)
      · rw [hsp] at h
        rcases List.mem_cons.1 h with h1 | h1
        · obtain ⟨b, hb⟩ := splitLines_first hsp
          refine ⟨[], b, ?_⟩
          rw [h1, List.nil_append, hb]
          rfl
        · have : l ∈ splitLines t := by rw [hsp]; exact List.mem_cons_of_mem _ h1
          obtain ⟨a, b, hab⟩ := ih this
          exact ⟨c :: a, b, by rw [List.cons_append, List.cons_append, ← hab]⟩

theorem scanNumCS_eq_nil_of_mem {content line : Str}
    (hc : containsNumMark content = false) (hl : line ∈ splitLines content) :
    scanNumCS line = [] := by
  obtain ⟨a, b, hab⟩ := mem_splitLines_middle hl
  rw [hab] at hc
  exact scanNumAux_eq_nil (containsNumMark_middle hc) 0

theorem extractCitationsCS_eq_nil {content : Str} (h : containsNumMark content = false) :
    extractCitationsCS content = [] := by
  have hms : ((splitLines content).enum.map
      (fun p => lineMatchesCS content p.2 (p.1 + 1))).flatten = [] := by
    rw [List.flatten_eq_nil_iff]
    intro x hx
    rw [List.mem_map] at hx
    obtain ⟨p, hp, rfl⟩ := hx
    have hmem : p.2 ∈ splitLines content := List.snd_mem_of_mem_enum hp
    unfold lineMatchesCS
    rw [scanNumCS_eq_nil_of_mem h hmem]
    rfl
  simp only [extractCitationsCS, hms]
  rfl

/-- C2: on a document containing no bracketed digit run anywhere (in
particular on any document already written entirely in footnote syntax, whose
markers all carry a caret), the numeric scanner finds nothing, extraction
yields no groups and convertAllCitations reports changed false, zero
conversions, and returns the content unchanged with the pool and the random
stream untouched. -/
theorem convertAll_unchanged_on_footnote_docs (pool : List Str) (stream : List Nat)
    (content : Str) (h : containsNumMark content = false) :
    convertAllCitationsCS pool stream content =
      some ({ content := content, changed := false, citationsConverted := 0 },
        pool, stream) := by
  have hg := extractCitationsCS_eq_nil h
  simp only [convertAllCitationsCS, hg, if_pos]

theorem convertAll_unchanged_on_footnote_docs_witness :
    containsNumMark demoFootnoteDoc = false ∧
    convertAllCitationsCS [] [] demoFootnoteDoc =
      some ({ content := demoFootnoteDoc, changed := false, citationsConverted := 0 },
        [], []) :=
  ⟨by decide, convertAll_unchanged_on_footnote_docs [] [] demoFootnoteDoc (by decide)⟩

/-! ### C6 support: one application leaves no adjacent bracket pair -/

theorem hasAdjB_cons_of_ne {w : Char} (hw : ¬w = ']') (l : Str) :
    hasAdjB (w :: l) = hasAdjB l := by
  cases l with
  | nil => rfl
  | cons x xs => simp [hasAdjB, hw]

theorem hasAdjB_cons_cons_of_ne {a b : Char} (hb : ¬b = '[') (l : Str) :
    hasAdjB (a :: b :: l) = hasAdjB (b :: l) := by
  simp [hasAdjB, hb]

theorem hasAdjB_ws_append {ws : Str} (hws : ∀ c ∈ ws, isWsCh c = true) (l : Str) :
    hasAdjB (ws ++ l) = hasAdjB l := by
  induction ws with
  | nil => rfl
  | cons w wt ih =>
    have hw : ¬w = ']' := by
      intro hEq
      have h1 := hws w (List.mem_cons_self w wt)
      rw [hEq] at h1
      exact absurd h1 (by decide)
    rw [List.cons_append, hasAdjB_cons_of_ne hw,
      ih fun c hc => hws c (List.mem_cons_of_mem _ hc)]

theorem assureAux_head (fuel : Nat) (l : Str) : (assureAux fuel l).head? = l.head? := by
  cases fuel with
  | zero => rfl
  | succ f =>
    cases l with
    | nil => rfl
    | cons c rest =>
      by_cases hc : c = ']'
      · subst hc
        rw [assureAux, if_pos rfl]
        by_cases hh : (rest.dropWhile isWsCh).head? = some '['
        · rw [if_pos hh]
          rfl
        · rw [if_neg hh]
          rfl
      · rw [assureAux, if_neg hc]
        rfl

theorem hasAdjB_assureAux : ∀ fuel (s : Str), s.length ≤ fuel →
    hasAdjB (assureAux fuel s) = false := by
  intro fuel
  induction fuel with
  | zero =>
    intro s hs
    have h0 : s = [] := List.length_eq_zero.1 (Nat.le_zero.1 hs)
    subst h0
    rfl
  | succ f ih =>
    intro s hs
    cases s with
    | nil => rfl
    | cons c rest =>
      have hrl : rest.length ≤ f := by
        rw [List.length_cons] at hs
        omega
      by_cases hc : c = ']'
      · subst hc
        rw [assureAux, if_pos rfl]
        by_cases hh : (rest.dropWhile isWsCh).head? = some '['
        · rw [if_pos hh]
          rw [hasAdjB_cons_cons_of_ne (by decide),
            hasAdjB_cons_of_ne (by decide),
            hasAdjB_ws_append (fun c hc => List.mem_takeWhile_imp hc),
            hasAdjB_cons_of_ne (by decide)]
          apply ih
          have hd1 : (rest.dropWhile isWsCh).length ≤ rest.length :=
            List.Sublist.length_le (List.dropWhile_sublist isWsCh)
          have hd2 : rest.dropWhile isWsCh ≠ [] := by
            intro hEq
            rw [hEq] at hh
            exact absurd hh (by simp)
          have hd3 : 0 < (rest.dropWhile isWsCh).length := List.length_pos.2 hd2
          rw [List.length_tail]
          omega
        · rw [if_neg hh]
          cases hX : assureAux f rest with
          | nil => rfl
          | cons x xs =>
            have hx : ¬x = '[' := by
              have hhead := assureAux_head f rest
              rw [hX] at hhead
              cases rest with
              | nil => simp at hhead
              | cons r rs =>
                have hxr : x = r := by simpa using hhead
                subst hxr
                by_cases hw : isWsCh x = true
                · intro hEq
                  rw [hEq] at hw
                  exact absurd hw (by decide)
                · intro hEq
                  apply hh
                  rw [List.dropWhile_cons_of_neg hw, hEq]
                  rfl
            have hres := ih rest hrl
            rw [hX] at hres
            rw [hasAdjB_cons_cons_of_ne hx]
            exact hres
      · rw [assureAux, if_neg hc, hasAdjB_cons_of_ne hc]
        exact ih rest hrl

/-- C6 amended: a single application of assureSpacingBetweenCitations inserts
a space between every closing bracket and the opening bracket right after it,
so its output never contains a closing bracket immediately followed by an
opening bracket; the function is however not idempotent (the counterexample
above), because the replacement also prepends a space when whitespace already
separates the brackets. -/
theorem assureSpacing_no_adjacent_brackets (content : Str) :
    hasAdjB (assureSpacingCS content) = false :=
  hasAdjB_assureAux (content.length + 1) content (Nat.le_succ _)

/-! ### C10 support: line counts through split, transform and join -/

theorem noNl_of_mem_splitLines {s l : Str} (h : l ∈ splitLines s) : '\n' ∉ l := by
  induction s generalizing l with
  | nil =>
    rw [splitLines, List.mem_singleton] at h
    subst h
    simp
  | cons c t ih =>
    rw [splitLines] at h
    by_cases hc : c = '\n'
    · rw [if_pos hc] at h
      rcases List.mem_cons.1 h with h1 | h1
      · subst h1; simp
      · exact ih h1
    · rw [if_neg hc] at h
      rcases hsp : splitLines t with _ | ⟨l0, ls0⟩
      · exact absurd hsp (splitLines_ne_nil t)
      · rw [hsp] at h
        rcases List.mem_cons.1 h with h1 | h1
        · subst h1
          intro hmem
          rcases List.mem_cons.1 hmem with h2 | h2
          · exact hc h2.symm
          · exact ih (by rw [hsp]; exact List.mem_cons_self _ _) h2
        · exact ih (by rw [hsp]; exact List.mem_cons_of_mem _ h1)

theorem splitLines_of_noNl {l : Str} (h : '\n' ∉ l) : splitLines l = [l] := by
  induction l with
  | nil => rfl
  | cons c t ih =>
    have hc : ¬c = '\n' := fun hEq => h (by rw [hEq]; exact List.mem_cons_self _ _)
    rw [splitLines, if_neg hc, ih fun hm => h (List.mem_cons_of_mem _ hm)]

theorem splitLines_append_nl {l r : Str} (h : '\n' ∉ l) :
    splitLines (l ++ '\n' :: r) = l :: splitLines r := by
  induction l with
  | nil => rw [List.nil_append, splitLines, if_pos rfl]
  | cons c t ih =>
    have hc : ¬c = '\n' := fun hEq => h (by rw [hEq]; exact List.mem_cons_self _ _)
    rw [List.cons_append, splitLines, if_neg hc, ih fun hm => h (List.mem_cons_of_mem _ hm)]

theorem splitLines_joinLines {ls : List Str} (h1 : ls ≠ [])
    (h2 : ∀ l ∈ ls, '\n' ∉ l) : splitLines (joinLines ls) = ls := by
  induction ls with
  | nil => exact absurd rfl h1
  | cons l rest ih =>
    cases rest with
    | nil => exact splitLines_of_noNl (h2 l (List.mem_cons_self _ _))
    | cons l2 rest2 =>
      have hjl : joinLines (l :: l2 :: rest2) = l ++ '\n' :: joinLines (l2 :: rest2) := rfl
      rw [hjl, splitLines_append_nl (h2 l (List.mem_cons_self _ _)),
        ih (by simp) fun x hx => h2 x (List.mem_cons_of_mem _ hx)]

theorem parseBrkPunct_decomp {s inner : Str} {p : Char} {rest2 : Str}
    (h : parseBrkPunct s = some (inner, p, rest2)) :
    ∃ t, s = '[' :: t ∧ inner = t.takeWhile (fun x => !(x = ']')) ∧
      t.dropWhile (fun x => !(x = ']')) = ']' :: p :: rest2 := by
  cases s with
  | nil => exact absurd h (by rw [parseBrkPunct]; simp)
  | cons c t =>
    rw [parseBrkPunct] at h
    by_cases hc : c = '['
    · subst hc
      rw [if_pos rfl] at h
      split at h
      · next d p0 r0 hdw =>
          split_ifs at h with hd he hp
          · injection h with h1
            injection h1 with ha hb
            injection hb with hb1 hb2
            subst ha; subst hb1; subst hb2; subst hd
            exact ⟨t, rfl, rfl, hdw⟩
      · next hother => exact absurd h (by simp)
    · rw [if_neg hc] at h
      exact absurd h (by simp)

theorem mem_moveLineCSAux : ∀ (fuel : Nat) (s : Str) (c : Char),
    c ∈ moveLineCSAux fuel s → c ∈ s := by
  intro fuel
  induction fuel with
  | zero => intro s c hc; exact hc
  | succ f ih =>
    intro s c hc
    cases s with
    | nil => exact hc
    | cons c0 rest =>
      rw [moveLineCSAux] at hc
      rcases hp : parseBrkPunct (c0 :: rest) with _ | ⟨inner, p, rest2⟩ <;> rw [hp] at hc
      · rcases List.mem_cons.1 hc with h1 | h1
        · rw [h1]; exact List.mem_cons_self _ _
        · exact List.mem_cons_of_mem _ (ih rest c h1)
      · obtain ⟨t, hs, hinner, hdw⟩ := parseBrkPunct_decomp hp
        injection hs with hs1 hs2
        have htsub : ∀ x ∈ t, x ∈ c0 :: rest := by
          intro x hx
          rw [← hs2] at hx
          exact List.mem_cons_of_mem _ hx
        have hdwsub : ∀ x ∈ (']' : Char) :: p :: rest2, x ∈ c0 :: rest := by
          intro x hx
          rw [← hdw] at hx
          exact htsub x (List.Sublist.mem hx (List.dropWhile_sublist _))
        rcases List.mem_cons.1 hc with h1 | h1
        · exact hdwsub c (by rw [h1]; simp)
        · rcases List.mem_cons.1 h1 with h2 | h2
          · rw [h2, hs1]; exact List.mem_cons_self _ _
          · rcases List.mem_append.1 h2 with h3 | h3
            · rw [hinner] at h3
              exact htsub c (List.Sublist.mem h3 (List.takeWhile_sublist _))
            · rcases List.mem_cons.1 h3 with h4 | h4
              · exact hdwsub c (by rw [h4]; simp)
              · have := ih rest2 c h4
                exact hdwsub c (by simp [this])

theorem parseUnit_decomp {s u rest : Str} (h : parseUnit s = some (u, rest)) :
    s = u ++ rest := by
  cases s with
  | nil => exact absurd h (by rw [parseUnit]; simp)
  | cons c t =>
    rw [parseUnit] at h
    by_cases hc : c = '['
    · subst hc
      rw [if_pos rfl] at h
      split at h
      · next d r0 hdw =>
          split_ifs at h with hd he
          · injection h with h1
            injection h1 with ha hb
            subst hb
            rw [← ha]
            have ht := List.takeWhile_append_dropWhile (p := fun x => !(x = ']')) (l := t)
            rw [hdw, hd] at ht
            generalize List.takeWhile (fun x => !(x = ']')) t = tw at ht ⊢
            rw [← ht]
            simp
      · next hother => exact absurd h (by simp)
    · rw [if_neg hc] at h
      exact absurd h (by simp)

theorem parseUnits_decomp : ∀ (fuel : Nat) (s : Str) (us : List Str) (r : Str),
    parseUnits fuel s = (us, r) → s = us.flatten ++ r := by
  intro fuel
  induction fuel with
  | zero =>
    intro s us r h
    rw [parseUnits] at h
    injection h with h1 h2
    subst h1; subst h2
    rfl
  | succ f ih =>
    intro s us r h
    rw [parseUnits] at h
    rcases hp : parseUnit s with _ | ⟨u, rest⟩ <;> simp only [hp] at h
    · injection h with h1 h2
      subst h1; subst h2
      rfl
    · have hd := parseUnit_decomp hp
      rcases hr : parseUnits f rest with ⟨us0, r0⟩
      rw [hr] at h
      injection h with h1 h2
      subst h1; subst h2
      rw [hd, ih rest us0 r0 hr, List.flatten_cons, List.append_assoc]

theorem mem_joinSp {us : List Str} {c : Char} (h : c ∈ joinSp us) :
    c ∈ us.flatten ∨ c = ' ' := by
  induction us with
  | nil => cases h
  | cons u rest ih =>
    cases rest with
    | nil =>
      rw [joinSp] at h
      exact Or.inl (by simpa using h)
    | cons u2 rest2 =>
      rw [joinSp] at h
      change c ∈ u ++ ' ' :: joinSp (u2 :: rest2) at h
      rcases List.mem_append.1 h with h1 | h1
      · exact Or.inl (by simp [h1])
      · rcases List.mem_cons.1 h1 with h2 | h2
        · exact Or.inr h2
        · rcases ih h2 with h3 | h3
          · exact Or.inl (by simp at h3 ⊢; tauto)
          · exact Or.inr h3

theorem mem_moveLineP2Aux : ∀ (fuel : Nat) (s : Str) (c : Char),
    c ∈ moveLineP2Aux fuel s → c ∈ s ∨ c = ' ' := by
  intro fuel
  induction fuel with
  | zero => intro s c hc; exact Or.inl hc
  | succ f ih =>
    intro s c hc
    cases s with
    | nil => cases hc
    | cons c0 rest =>
      rw [moveLineP2Aux] at hc
      split at hc
      · next u us2 p rest2 heq =>
          split at hc
          · next hpz =>
              have hdec := parseUnits_decomp _ _ _ _ heq
              have hsplice : ∀ x, x ∈ ((u :: us2).flatten : Str) ∨ x ∈ (p :: rest2 : Str) →
                  x ∈ c0 :: rest := by
                intro x hx
                rw [hdec]
                exact List.mem_append.2 hx
              rcases List.mem_cons.1 hc with h1 | h1
              · exact Or.inl (hsplice c (Or.inr (by rw [h1]; simp)))
              · rcases List.mem_cons.1 h1 with h2 | h2
                · exact Or.inr h2
                · rcases List.mem_append.1 h2 with h3 | h3
                  · rcases mem_joinSp h3 with h4 | h4
                    · exact Or.inl (hsplice c (Or.inl h4))
                    · exact Or.inr h4
                  · rcases ih rest2 c h3 with h4 | h4
                    · exact Or.inl (hsplice c (Or.inr (List.mem_cons_of_mem _ h4)))
                    · exact Or.inr h4
          · next hpz =>
              rcases List.mem_cons.1 hc with h1 | h1
              · exact Or.inl (by rw [h1]; exact List.mem_cons_self _ _)
              · rcases ih rest c h1 with h2 | h2
                · exact Or.inl (List.mem_cons_of_mem _ h2)
                · exact Or.inr h2
      · next hother =>
          rcases List.mem_cons.1 hc with h1 | h1
          · exact Or.inl (by rw [h1]; exact List.mem_cons_self _ _)
          · rcases ih rest c h1 with h2 | h2
            · exact Or.inl (List.mem_cons_of_mem _ h2)
            · exact Or.inr h2

theorem noNl_moveLineCS {l : Str} (h : '\n' ∉ l) (fuel : Nat) :
    '\n' ∉ moveLineCSAux fuel l :=
  fun hm => h (mem_moveLineCSAux fuel l '\n' hm)

theorem noNl_moveLineP2Aux {l : Str} (h : '\n' ∉ l) (fuel : Nat) :
    '\n' ∉ moveLineP2Aux fuel l := by
  intro hm
  rcases mem_moveLineP2Aux fuel l '\n' hm with h1 | h1
  · exact h h1
  · cases h1

theorem moveLineP2_snd {b : Bool} {l : Str} :
    (moveLineP2 b l).2 = l ∨ (moveLineP2 b l).2 = moveLineP2Aux (l.length + 1) l := by
  rw [moveLineP2]
  by_cases h1 : isHeadingRef l = true
  · rw [if_pos h1]; exact Or.inl rfl
  · rw [if_neg h1]
    by_cases h2 : (b && isRefDefAny l) = true
    · rw [if_pos h2]; exact Or.inl rfl
    · rw [if_neg h2]
      by_cases h3 : (if b && !(trimStr l).isEmpty && !isRefDefAny l && !isStarsLine l
          then if (trimStr l).head? = some '#' then false else b else b) = true
      · rw [if_pos h3]; exact Or.inl rfl
      · rw [if_neg h3]; exact Or.inr rfl

theorem length_moveLinesP2 : ∀ (b : Bool) (ls : List Str),
    (moveLinesP2 b ls).length = ls.length := by
  intro b ls
  induction ls generalizing b with
  | nil => rfl
  | cons l rest ih => simp [moveLinesP2, ih]

theorem noNl_moveLinesP2 : ∀ (b : Bool) (ls : List Str), (∀ l ∈ ls, '\n' ∉ l) →
    ∀ l2 ∈ moveLinesP2 b ls, '\n' ∉ l2 := by
  intro b ls
  induction ls generalizing b with
  | nil => intro _ l2 h2; cases h2
  | cons l rest ih =>
    intro h l2 h2
    rw [moveLinesP2] at h2
    rcases List.mem_cons.1 h2 with h3 | h3
    · subst h3
      rcases moveLineP2_snd (b := b) (l := l) with h4 | h4 <;> rw [h4]
      · exact h l (List.mem_cons_self _ _)
      · exact noNl_moveLineP2Aux (h l (List.mem_cons_self _ _)) _
    · exact ih _ (fun x hx => h x (List.mem_cons_of_mem _ hx)) l2 h3

/-- C10: both versions of moveCitationsBehindPunctuation preserve the number
of lines of the document: they split on newline, transform each line with
replacements that only rearrange characters of the line or insert spaces, and
join with newline, so splitting the output yields exactly as many lines as
splitting the input. -/
theorem movePunctuation_preserves_line_count (content : Str) :
    (splitLines (moveCitationsCS content)).length = (splitLines content).length ∧
    (splitLines (moveCitationsP2 content)).length = (splitLines content).length := by
  constructor
  · rw [moveCitationsCS]
    rw [splitLines_joinLines]
    · rw [List.length_map]
    · intro hEq
      exact splitLines_ne_nil content (List.map_eq_nil_iff.1 hEq)
    · intro l hl
      rw [List.mem_map] at hl
      obtain ⟨l0, hl0, rfl⟩ := hl
      exact noNl_moveLineCS (noNl_of_mem_splitLines hl0) _
  · rw [moveCitationsP2]
    rw [splitLines_joinLines]
    · rw [length_moveLinesP2]
    · intro hEq
      have := length_moveLinesP2 false (splitLines content)
      rw [hEq] at this
      have h0 : splitLines content = [] := by
        rw [List.length_nil] at this
        exact List.length_eq_zero.1 this.symm
      exact splitLines_ne_nil content h0
    · exact noNl_moveLinesP2 false _ fun l hl => noNl_of_mem_splitLines hl

/-! ### C5 support: keys of the two namespaces and group homogeneity -/

theorem numericKey_not_hexKey {k : Str} (h : isNumericKeyB k = true) :
    isHexKeyB k = false := by
  cases k with
  | nil => rfl
  | cons a t =>
    rw [isNumericKeyB] at h
    simp only [Bool.and_eq_true, List.all_cons] at h
    have ha : isDigitCh a = true := h.2.1
    cases t with
    | nil => simp [isHexKeyB]
    | cons b t2 =>
      cases t2 with
      | nil => simp [isHexKeyB]
      | cons c2 t3 =>
        cases t3 with
        | nil => simp [isHexKeyB]
        | cons d t4 =>
          rw [isHexKeyB]
          by_contra hx
          simp only [Bool.not_eq_false, decide_eq_true_eq, List.take_succ_cons,
            List.take_zero] at hx
          rw [List.cons.injEq] at hx
          rw [hx.1] at ha
          exact absurd ha (by decide)

theorem isHexKeyB_hexKey (tok : Str) : isHexKeyB (hexKey tok) = true := by
  simp [isHexKeyB, hexKey]

theorem scanNumLA_shape : ∀ (s : Str) (i : Nat) (p : Nat × Str), p ∈ scanNumLA s i →
    isNumericKeyB p.2 = true := by
  intro s
  induction s with
  | nil => intro i p hp; cases hp
  | cons c rest ih =>
    intro i p hp
    rw [scanNumLA] at hp
    rcases List.mem_append.1 hp with h1 | h1
    · split at h1
      · split at h1
        · split at h1
          · split at h1
            · cases h1
            · next hcond =>
                rw [List.mem_singleton] at h1
                subst h1
                simp only [Bool.or_eq_true, not_or, Bool.not_eq_true] at hcond
                rw [isNumericKeyB]
                simp only [Bool.and_eq_true, List.all_takeWhile, and_true]
                rw [Bool.not_eq_true']
                exact hcond.1
          · cases h1
        · cases h1
      · cases h1
    · exact ih (i + 1) p h1

theorem lineMatchesP2_shape {content line : Str} {no : Nat} {m : CMatch}
    (hm : m ∈ lineMatchesP2 content line no) :
    isNumericKeyB m.number = true ∨ isHexKeyB m.number = true := by
  rw [lineMatchesP2] at hm
  split at hm
  · cases hm
  · split at hm
    · cases hm
    · rcases List.mem_append.1 hm with h1 | h1
      · rw [List.mem_filterMap] at h1
        obtain ⟨p, hp, hsome⟩ := h1
        split at hsome
        · injection hsome with hinj
          subst hinj
          exact Or.inl (scanNumLA_shape line 0 p hp)
        · cases hsome
      · rw [List.mem_filterMap] at h1
        obtain ⟨p, hp, hsome⟩ := h1
        split at hsome
        · injection hsome with hinj
          subst hinj
          exact Or.inr (isHexKeyB_hexKey p.2)
        · cases hsome

theorem upsertMatch_inv {gs : List CGroup} {m : CMatch}
    (hgs : ∀ g ∈ gs, GroupWellKeyed g)
    (hm : isNumericKeyB m.number = true ∨ isHexKeyB m.number = true) :
    ∀ g ∈ upsertMatch gs m, GroupWellKeyed g := by
  intro g hg
  rw [upsertMatch] at hg
  split at hg
  · rw [List.mem_map] at hg
    obtain ⟨g0, hg0, rfl⟩ := hg
    by_cases he : g0.number = m.number
    · rw [if_pos he]
      obtain ⟨hk, hx⟩ := hgs g0 hg0
      refine ⟨hk, ?_⟩
      intro x hxm
      rcases List.mem_append.1 hxm with h1 | h1
      · exact hx x h1
      · rw [List.mem_singleton] at h1
        subst h1
        exact he.symm
    · rw [if_neg he]
      exact hgs g0 hg0
  · rcases List.mem_append.1 hg with h1 | h1
    · exact hgs g h1
    · rw [List.mem_singleton] at h1
      subst h1
      refine ⟨hm, ?_⟩
      intro x hx
      rw [List.mem_singleton] at hx
      subst hx
      rfl

theorem foldl_upsert_inv : ∀ (ms : List CMatch) (gs : List CGroup),
    (∀ g ∈ gs, GroupWellKeyed g) →
    (∀ m ∈ ms, isNumericKeyB m.number = true ∨ isHexKeyB m.number = true) →
    ∀ g ∈ ms.foldl upsertMatch gs, GroupWellKeyed g := by
  intro ms
  induction ms with
  | nil => intro gs hgs _ g hg; exact hgs g hg
  | cons m rest ih =>
    intro gs hgs hms g hg
    rw [List.foldl_cons] at hg
    exact ih (upsertMatch gs m)
      (upsertMatch_inv hgs (hms m (List.mem_cons_self _ _)))
      (fun x hx => hms x (List.mem_cons_of_mem _ hx)) g hg

theorem pushIfGroup_inv {gs : List CGroup} {k : Str} {m : CMatch}
    (hgs : ∀ g ∈ gs, GroupWellKeyed g) (hm : m.number = k) :
    ∀ g ∈ pushIfGroup gs k m, GroupWellKeyed g := by
  intro g hg
  rw [pushIfGroup, List.mem_map] at hg
  obtain ⟨g0, hg0, rfl⟩ := hg
  by_cases he : g0.number = k
  · rw [if_pos he]
    obtain ⟨hk, hx⟩ := hgs g0 hg0
    refine ⟨hk, ?_⟩
    intro x hxm
    rcases List.mem_append.1 hxm with h1 | h1
    · exact hx x h1
    · rw [List.mem_singleton] at h1
      subst h1
      rw [hm]
      exact he.symm
  · rw [if_neg he]
    exact hgs g0 hg0

theorem refPassNum_inv {content : Str} {gs : List CGroup} {p : Nat × Str}
    (hgs : ∀ g ∈ gs, GroupWellKeyed g) :
    ∀ g ∈ refPassNum content gs p, GroupWellKeyed g := by
  rcases hn : parseNumRef p.2 with _ | ds <;> simp only [refPassNum, hn]
  · exact hgs
  · exact pushIfGroup_inv hgs rfl

theorem refPassHex_inv {content : Str} {gs : List CGroup} {p : Nat × Str}
    (hgs : ∀ g ∈ gs, GroupWellKeyed g) :
    ∀ g ∈ refPassHex content gs p, GroupWellKeyed g := by
  rcases hn : parseHexRef p.2 with _ | tok <;> simp only [refPassHex, hn]
  · exact hgs
  · exact pushIfGroup_inv hgs rfl

theorem refPassLine_inv {content : Str} {gs : List CGroup} {p : Nat × Str}
    (hgs : ∀ g ∈ gs, GroupWellKeyed g) :
    ∀ g ∈ refPassLine content gs p, GroupWellKeyed g := by
  rw [refPassLine]
  split
  · exact hgs
  · exact refPassHex_inv (refPassNum_inv hgs)

theorem foldl_refPass_inv {content : Str} : ∀ (ps : List (Nat × Str)) (gs : List CGroup),
    (∀ g ∈ gs, GroupWellKeyed g) →
    ∀ g ∈ ps.foldl (refPassLine content) gs, GroupWellKeyed g := by
  intro ps
  induction ps with
  | nil => intro gs hgs g hg; exact hgs g hg
  | cons p rest ih =>
    intro gs hgs g hg
    rw [List.foldl_cons] at hg
    exact ih (refPassLine content gs p) (refPassLine_inv hgs) g hg

theorem extractCitationsP2_inv (content : Str) :
    ∀ g ∈ extractCitationsP2 content, GroupWellKeyed g := by
  rw [extractCitationsP2]
  apply foldl_refPass_inv
  apply foldl_upsert_inv
  · intro g hg
    cases hg
  · intro m hm
    rw [List.mem_flatten] at hm
    obtain ⟨l, hl, hml⟩ := hm
    rw [List.mem_map] at hl
    obtain ⟨p, _, rfl⟩ := hl
    exact lineMatchesP2_shape hml

/-- C5: in extractCitations of part_002, all matches of one group carry the
same key, a key is never both a bare digit string (the key of a numeric
marker) and a hex-underscore-prefixed token (the key of a footnote marker),
and every key is of one of those two forms; a numeric citation and a footnote
citation therefore always land in different groups, even when their literal
token text coincides. -/
theorem citation_namespaces_never_merge (content : Str) (g : CGroup)
    (hg : g ∈ extractCitationsP2 content) (m1 m2 : CMatch)
    (h1 : m1 ∈ g.matchList) (h2 : m2 ∈ g.matchList) :
    m1.number = m2.number ∧
    (isNumericKeyB m1.number = true ∨ isHexKeyB m1.number = true) ∧
    ¬(isNumericKeyB m1.number = true ∧ isHexKeyB m2.number = true) := by
  obtain ⟨hshape, hhom⟩ := extractCitationsP2_inv content g hg
  have e1 := hhom m1 h1
  have e2 := hhom m2 h2
  refine ⟨e1.trans e2.symm, by rw [e1]; exact hshape, ?_⟩
  rintro ⟨hn, hx⟩
  rw [e1] at hn
  rw [e2] at hx
  rw [numericKey_not_hexKey hn] at hx
  cases hx

theorem citation_namespaces_never_merge_witness :
    (extractCitationsP2 demoMixedDoc).length = 2 ∧
    (c5match.number = c5match.number ∧
      (isNumericKeyB c5match.number = true ∨ isHexKeyB c5match.number = true) ∧
      ¬(isNumericKeyB c5match.number = true ∧ isHexKeyB c5match.number = true)) :=
  ⟨by decide,
    citation_namespaces_never_merge demoMixedDoc c5group (by decide) c5match c5match
      (by decide) (by decide)⟩

end CiteWide
